import Mathlib

/-!
Shallow embedding of the HelmRelease reconciler (controllers package) and its
data model (api/v1alpha1).  External collaborators — the Kubernetes client
(Get/Update/Status().Update) and the Helm client (ReleaseExists / Install /
Upgrade / Uninstall) — are modelled by an environment `Env` of per-invocation
responses; the reconciler records every Helm call and every store write in the
outcome trace.
-/

/-- `finalizerName` constant from the controllers package. -/
def finalizerName : String := "helm.example.com/finalizer"

/-- `requeueOnFailure` constant, in seconds (30 * time.Second). -/
def requeueOnFailure : Nat := 30

/-- `Phase` type of api/v1alpha1 (string enum). -/
inductive Phase where
  | installing
  | upgrading
  | ready
  | failed
  | uninstalling
deriving DecidableEq

/-- metav1.ConditionTrue. -/
def ConditionTrue : String := "True"

/-- metav1.ConditionFalse. -/
def ConditionFalse : String := "False"

/-- metav1.Condition: type, status, reason, message, observedGeneration,
lastTransitionTime (timestamps modelled as Nat). -/
structure Condition where
  type : String
  status : String
  reason : String
  message : String
  observedGeneration : Int
  lastTransitionTime : Nat
deriving DecidableEq

/-- Decoded Helm values (map[string]interface\x7b\x7d), abstracted to an
association list; only its identity matters to the reconciler. -/
abbrev Values := List (String × String)

/-- HelmReleaseSpec of api/v1alpha1.  `values` holds the raw JSON payload
(`Spec.Values.Raw`) when present. -/
structure HelmReleaseSpec where
  chart : String
  repoURL : String
  version : String
  targetNamespace : String
  releaseName : String
  values : Option String
deriving DecidableEq

/-- HelmReleaseStatus of api/v1alpha1 (helmRevision is never touched by the
reconciler and is omitted). -/
structure HelmReleaseStatus where
  phase : Option Phase
  conditions : List Condition
  deployedVersion : String
  lastDeployedAt : Option Nat
  observedGeneration : Int
deriving DecidableEq

/-- HelmRelease record: metadata (name, namespace, generation,
deletionTimestamp, finalizers), spec and status. -/
structure HelmRelease where
  name : String
  nspace : String
  generation : Int
  deletionTimestamp : Option Nat
  finalizers : List String
  spec : HelmReleaseSpec
  status : HelmReleaseStatus
deriving DecidableEq

/-- One call against the Helm client interface. -/
inductive HelmCall where
  | releaseExists (releaseName ns : String)
  | install (releaseName chart repoURL version ns : String) (values : Values)
  | upgrade (releaseName chart repoURL version ns : String) (values : Values)
  | uninstall (releaseName ns : String)
deriving DecidableEq

/-- One write against the record store: full update (r.Update) or status
subresource update (r.Status().Update), with the record as written. -/
inductive StoreOp where
  | update (rel : HelmRelease)
  | statusUpdate (rel : HelmRelease)
deriving DecidableEq

/-- Per-invocation responses of the external collaborators: the JSON decoder
for the values payload, the Helm client results, the store write results and
the current clock. -/
structure Env where
  decode : String → Except String Values
  existsResult : Except String Bool
  installErr : Option String
  upgradeErr : Option String
  uninstallErr : Option String
  statusUpdateErr : Option String
  updateErr : Option String
  now : Nat

/-- Result of one reconcile invocation: the in-memory record at return,
the ctrl.Result requeue delay (0 = none), the returned error, and the traces
of Helm calls and store writes in order. -/
structure ReconcileOutcome where
  release : HelmRelease
  requeueAfter : Nat
  err : Option String
  calls : List HelmCall
  ops : List StoreOp
deriving DecidableEq

/-- controllerutil.ContainsFinalizer. -/
def containsFinalizer (rel : HelmRelease) (f : String) : Bool :=
  rel.finalizers.contains f

/-- controllerutil.AddFinalizer: append the token if absent. -/
def addFinalizer (rel : HelmRelease) (f : String) : HelmRelease :=
  if rel.finalizers.contains f then rel
  else { rel with finalizers := rel.finalizers ++ [f] }

/-- controllerutil.RemoveFinalizer: drop every occurrence of the token. -/
def removeFinalizer (rel : HelmRelease) (f : String) : HelmRelease :=
  { rel with finalizers := rel.finalizers.filter (fun x => x != f) }

/-- Effective release name: spec override when non-empty, else the record
name (`releaseName := release.Name; if Spec.ReleaseName != "" ...`). -/
def effectiveReleaseName (rel : HelmRelease) : String :=
  if rel.spec.releaseName != "" then rel.spec.releaseName else rel.name

/-- json.Unmarshal of the optional values payload: nil payload decodes to the
empty map, otherwise the decoder runs on the raw bytes. -/
def parseValues (env : Env) : Option String → Except String Values
  | none => .ok []
  | some raw => env.decode raw

/-- Body of the loop in `setCondition`: replace the first condition of the
same type (keeping its lastTransitionTime when the status value is unchanged),
else append. -/
def upsertCondition (condition : Condition) : List Condition → List Condition
  | [] => [condition]
  | c :: rest =>
    if c.type == condition.type then
      (if c.status == condition.status then
        { condition with lastTransitionTime := c.lastTransitionTime }
      else condition) :: rest
    else
      c :: upsertCondition condition rest

/-- `setCondition`: stamp the condition with the current time, then upsert it
into the status conditions. -/
def setCondition (now : Nat) (rel : HelmRelease) (condition : Condition) :
    HelmRelease :=
  { rel with status.conditions :=
      (upsertCondition { condition with lastTransitionTime := now }
        rel.status.conditions) }

/-- `setFailedStatus`: set phase Failed and upsert a Ready=False condition
with reason ReconcileError and the error text as message.  (The best-effort
status write it performs is recorded by the caller; its own result is
discarded, and the original error is what the caller returns.) -/
def setFailedStatus (env : Env) (rel : HelmRelease) (msg : String) :
    HelmRelease :=
  setCondition env.now { rel with status.phase := some Phase.failed }
    { type := "Ready", status := ConditionFalse, reason := "ReconcileError",
      message := msg, observedGeneration := rel.generation,
      lastTransitionTime := 0 }

/-- Success epilogue of `reconcileNormal`: phase Ready, deployedVersion,
lastDeployedAt, observedGeneration, then upsert Ready=True and
Progressing=False conditions. -/
def readyStatus (env : Env) (rel : HelmRelease) : HelmRelease :=
  let rel1 : HelmRelease := { rel with
    status.phase := some Phase.ready,
    status.deployedVersion := rel.spec.version,
    status.lastDeployedAt := some env.now,
    status.observedGeneration := rel.generation }
  let rel2 := setCondition env.now rel1
    { type := "Ready", status := ConditionTrue, reason := "ReconcileSuccess",
      message := "Helm release is ready", observedGeneration := rel1.generation,
      lastTransitionTime := 0 }
  setCondition env.now rel2
    { type := "Progressing", status := ConditionFalse,
      reason := "ReconcileSuccess",
      message := "Helm release reconciliation complete",
      observedGeneration := rel2.generation, lastTransitionTime := 0 }

/-- Final status write of `reconcileNormal`: build the Ready status, attempt
the status update, surface its error (wrapped) when it fails. -/
def finishReady (env : Env) (rel : HelmRelease) (calls : List HelmCall)
    (ops : List StoreOp) : ReconcileOutcome :=
  let rel2 := readyStatus env rel
  match env.statusUpdateErr with
  | some msg =>
    { release := rel2, requeueAfter := 0,
      err := some ("updating status: " ++ msg), calls := calls,
      ops := ops ++ [StoreOp.statusUpdate rel2] }
  | none =>
    { release := rel2, requeueAfter := 0, err := none, calls := calls,
      ops := ops ++ [StoreOp.statusUpdate rel2] }

/-- `reconcileNormal`: decode values, existence-check, install or upgrade as
required, then the Ready epilogue.  Decode failure returns ctrl.Result\x7b\x7d
(no RequeueAfter); Helm call failures return RequeueAfter = requeueOnFailure. -/
def reconcileNormal (env : Env) (rel : HelmRelease) : ReconcileOutcome :=
  let releaseName := effectiveReleaseName rel
  let ns := rel.spec.targetNamespace
  match parseValues env rel.spec.values with
  | .error msg =>
    let emsg := "parsing values: " ++ msg
    let f := setFailedStatus env rel emsg
    { release := f, requeueAfter := 0, err := some emsg, calls := [],
      ops := [StoreOp.statusUpdate f] }
  | .ok values =>
    let existsCall := HelmCall.releaseExists releaseName ns
    match env.existsResult with
    | .error msg =>
      let f := setFailedStatus env rel msg
      { release := f, requeueAfter := requeueOnFailure, err := some msg,
        calls := [existsCall], ops := [StoreOp.statusUpdate f] }
    | .ok ex =>
      if !ex then
        let rel1 : HelmRelease := { rel with status.phase := some Phase.installing }
        let installCall := HelmCall.install releaseName rel.spec.chart
          rel.spec.repoURL rel.spec.version ns values
        match env.installErr with
        | some msg =>
          let f := setFailedStatus env rel1 msg
          { release := f, requeueAfter := requeueOnFailure, err := some msg,
            calls := [existsCall, installCall],
            ops := [StoreOp.statusUpdate rel1, StoreOp.statusUpdate f] }
        | none =>
          finishReady env rel1 [existsCall, installCall]
            [StoreOp.statusUpdate rel1]
      else if rel.status.observedGeneration != rel.generation then
        let rel1 : HelmRelease := { rel with status.phase := some Phase.upgrading }
        let upgradeCall := HelmCall.upgrade releaseName rel.spec.chart
          rel.spec.repoURL rel.spec.version ns values
        match env.upgradeErr with
        | some msg =>
          let f := setFailedStatus env rel1 msg
          { release := f, requeueAfter := requeueOnFailure, err := some msg,
            calls := [existsCall, upgradeCall],
            ops := [StoreOp.statusUpdate rel1, StoreOp.statusUpdate f] }
        | none =>
          finishReady env rel1 [existsCall, upgradeCall]
            [StoreOp.statusUpdate rel1]
      else
        finishReady env rel [existsCall] []

/-- `reconcileDelete`: no-op without the finalizer; else write phase
Uninstalling (best-effort), uninstall, and on success remove the finalizer
and update the record. -/
def reconcileDelete (env : Env) (rel : HelmRelease) : ReconcileOutcome :=
  if !containsFinalizer rel finalizerName then
    { release := rel, requeueAfter := 0, err := none, calls := [], ops := [] }
  else
    let releaseName := effectiveReleaseName rel
    let rel1 : HelmRelease := { rel with status.phase := some Phase.uninstalling }
    let uninstallCall := HelmCall.uninstall releaseName rel.spec.targetNamespace
    match env.uninstallErr with
    | some msg =>
      let f := setFailedStatus env rel1 msg
      { release := f, requeueAfter := requeueOnFailure, err := some msg,
        calls := [uninstallCall],
        ops := [StoreOp.statusUpdate rel1, StoreOp.statusUpdate f] }
    | none =>
      let rel2 := removeFinalizer rel1 finalizerName
      match env.updateErr with
      | some msg =>
        { release := rel2, requeueAfter := 0,
          err := some ("removing finalizer: " ++ msg),
          calls := [uninstallCall],
          ops := [StoreOp.statusUpdate rel1, StoreOp.update rel2] }
      | none =>
        { release := rel2, requeueAfter := 0, err := none,
          calls := [uninstallCall],
          ops := [StoreOp.statusUpdate rel1, StoreOp.update rel2] }

/-- `Reconcile` on a fetched record: deletion path when the deletion
timestamp is set; finalizer attachment (update and return) when the finalizer
is absent; otherwise the normal path. -/
def Reconcile (env : Env) (rel : HelmRelease) : ReconcileOutcome :=
  if rel.deletionTimestamp.isSome then
    reconcileDelete env rel
  else if !containsFinalizer rel finalizerName then
    let rel1 := addFinalizer rel finalizerName
    match env.updateErr with
    | some msg =>
      { release := rel1, requeueAfter := 0,
        err := some ("adding finalizer: " ++ msg), calls := [],
        ops := [StoreOp.update rel1] }
    | none =>
      { release := rel1, requeueAfter := 0, err := none, calls := [],
        ops := [StoreOp.update rel1] }
  else
    reconcileNormal env rel

/-- Iterated reconciliation: feed the outcome record back in `n` times and
concatenate the Helm call traces. -/
def iterateReconcile (env : Env) : HelmRelease → Nat → HelmRelease × List HelmCall
  | rel, 0 => (rel, [])
  | rel, n + 1 =>
    let out := Reconcile env rel
    let next := iterateReconcile env out.release n
    (next.1, out.calls ++ next.2)

/-- A deployment-action call: install, upgrade or uninstall (the existence
check is read-only). -/
def isDeployCall : HelmCall → Bool
  | .releaseExists _ _ => false
  | _ => true

/-- The record carried by a store write. -/
def opRecord : StoreOp → HelmRelease
  | .update rel => rel
  | .statusUpdate rel => rel

/-- Status invariant: phase Ready implies the condition of type Ready has
status True and the condition of type Progressing has status False. -/
def readyInv (rel : HelmRelease) : Prop :=
  rel.status.phase = some Phase.ready →
    ((rel.status.conditions.find? (fun d => d.type == "Ready")).map
        Condition.status = some ConditionTrue ∧
     (rel.status.conditions.find? (fun d => d.type == "Progressing")).map
        Condition.status = some ConditionFalse)

/-- Outcome of a reconcile invocation routed through the failure handler for
error text `msg`, as observed on a record whose generation is `g`. -/
def failedOutcome (g : Int) (out : ReconcileOutcome) (msg : String) : Prop :=
  out.err = some msg ∧
  out.release.status.phase = some Phase.failed ∧
  ∃ t, out.release.status.conditions.find? (fun d => d.type == "Ready") =
    some { type := "Ready", status := ConditionFalse,
           reason := "ReconcileError", message := msg,
           observedGeneration := g, lastTransitionTime := t }

/-! Concrete sample records and environments used by the witnesses. -/

/-- Spec of concrete scenario A: chart nginx 1.0.0 into namespace demo. -/
def specW : HelmReleaseSpec :=
  { chart := "nginx", repoURL := "https://charts.example.com",
    version := "1.0.0", targetNamespace := "demo", releaseName := "",
    values := none }

/-- Empty initial status. -/
def statusW : HelmReleaseStatus :=
  { phase := none, conditions := [], deployedVersion := "",
    lastDeployedAt := none, observedGeneration := 0 }

/-- Baseline environment: everything succeeds, no release installed yet. -/
def envW : Env :=
  { decode := fun _ => .ok [], existsResult := .ok false, installErr := none,
    upgradeErr := none, uninstallErr := none, statusUpdateErr := none,
    updateErr := none, now := 5 }

/-- Fresh record before its first reconcile: no finalizer. -/
def relW0 : HelmRelease :=
  { name := "nginx", nspace := "default", generation := 1,
    deletionTimestamp := none, finalizers := [], spec := specW,
    status := statusW }

/-- The record after finalizer attachment. -/
def relW1 : HelmRelease := { relW0 with finalizers := [finalizerName] }

/-- The record once generation 1 has been observed. -/
def relW2 : HelmRelease := { relW1 with status.observedGeneration := 1 }

/-- A record under deletion (deletion timestamp set, finalizer present). -/
def relDel : HelmRelease := { relW1 with deletionTimestamp := some 9 }

/-- A record whose spec carries a values payload. -/
def relVals : HelmRelease := { relW1 with spec.values := some "not-json" }

/-- Environment whose JSON decoder rejects every payload. -/
def envBadDecode : Env := { envW with decode := fun _ => .error "invalid json" }

/-- Environment reporting the release as already installed. -/
def envExistsTrue : Env := { envW with existsResult := .ok true }

/-- Environment whose install call fails. -/
def envInstallFail : Env := { envW with installErr := some "install failed" }

/-- Environment whose uninstall call fails. -/
def envUninstallFail : Env :=
  { envW with uninstallErr := some "uninstall failed" }

/-! Lemmas about the condition upsert. -/

/-- Characterisation of the upsert after stamping: the entry found by type is
the new condition, keeping the prior transition timestamp exactly when an
entry of that type existed with the same status value. -/
theorem find_upsertCondition_spec (now : Nat) (c : Condition)
    (l : List Condition) :
    (upsertCondition { c with lastTransitionTime := now } l).find?
        (fun d => d.type == c.type) =
      some (match l.find? (fun d => d.type == c.type) with
        | some c0 => { c with lastTransitionTime :=
            if c0.status == c.status then c0.lastTransitionTime else now }
        | none => { c with lastTransitionTime := now }) := by
  induction l with
  | nil => simp [upsertCondition, List.find?]
  | cons c0 rest ih =>
    by_cases h0 : (c0.type == c.type) = true
    · by_cases hs : (c0.status == c.status) = true
      · simp [upsertCondition, h0, hs, List.find?]
      · simp [upsertCondition, h0, hs, List.find?] at *
    · simp [upsertCondition, h0, List.find?, ih]

/-- Upserting a condition of a different type leaves lookups by type `t`
unchanged. -/
theorem find_upsertCondition_ne (c : Condition) (l : List Condition)
    (t : String) (h : (c.type == t) = false) :
    (upsertCondition c l).find? (fun d => d.type == t) =
      l.find? (fun d => d.type == t) := by
  induction l with
  | nil => simp [upsertCondition, List.find?, h]
  | cons c0 rest ih =>
    by_cases h0 : (c0.type == c.type) = true
    · have hc0 : c0.type = c.type := eq_of_beq h0
      by_cases hs : (c0.status == c.status) = true <;>
        simp [upsertCondition, h0, hs, List.find?, hc0, h]
    · simp [upsertCondition, h0, List.find?, ih]

/-- After upserting, the entry found under the condition's own type carries
its (new) status value. -/
theorem find_upsertCondition_status (now : Nat) (c : Condition)
    (l : List Condition) (t : String) (ht : c.type = t) :
    ((upsertCondition { c with lastTransitionTime := now } l).find?
        (fun d => d.type == t)).map Condition.status = some c.status := by
  subst ht
  rw [find_upsertCondition_spec]
  cases l.find? (fun d => d.type == c.type) <;> simp

/-- C6: upserting a condition whose type already occurs with the same status
value keeps the prior last-transition timestamp while taking the new reason,
message and observed generation; a changed status value, or a type not yet
present, yields a fresh timestamp. -/
theorem setCondition_timestamp_stability (now : Nat) (rel : HelmRelease)
    (c : Condition) :
    (setCondition now rel c).status.conditions.find?
        (fun d => d.type == c.type) =
      some (match rel.status.conditions.find? (fun d => d.type == c.type) with
        | some c0 => { c with lastTransitionTime :=
            if c0.status == c.status then c0.lastTransitionTime else now }
        | none => { c with lastTransitionTime := now }) :=
  find_upsertCondition_spec now c rel.status.conditions

/-! Invariant lemmas for the status writes. -/

/-- A record whose phase is not Ready satisfies the Ready invariant
vacuously. -/
theorem readyInv_of_phase_ne (rel : HelmRelease)
    (h : rel.status.phase ≠ some Phase.ready) : readyInv rel :=
  fun hr => absurd hr h

/-- The failure handler never writes phase Ready. -/
theorem setFailedStatus_phase (env : Env) (rel : HelmRelease) (msg : String) :
    (setFailedStatus env rel msg).status.phase = some Phase.failed := rfl

/-- The failure handler's record satisfies the Ready invariant. -/
theorem readyInv_setFailedStatus (env : Env) (rel : HelmRelease)
    (msg : String) : readyInv (setFailedStatus env rel msg) := by
  intro h
  rw [setFailedStatus_phase] at h
  exact absurd h (by simp)

/-- The Ready epilogue record satisfies the Ready invariant: it upserts
Ready=True then Progressing=False in the same write. -/
theorem readyInv_readyStatus (env : Env) (rel : HelmRelease) :
    readyInv (readyStatus env rel) := by
  intro _
  constructor
  · show ((upsertCondition _ (upsertCondition _ _)).find?
      (fun d => d.type == "Ready")).map Condition.status = some ConditionTrue
    rw [find_upsertCondition_ne _ _ "Ready" (by rfl)]
    exact find_upsertCondition_status env.now _ _ "Ready" rfl
  · show ((upsertCondition _ (upsertCondition _ _)).find?
      (fun d => d.type == "Progressing")).map Condition.status =
        some ConditionFalse
    exact find_upsertCondition_status env.now _ _ "Progressing" rfl

/-- Every store write of the deletion path carries phase Uninstalling or
Failed, never Ready. -/
theorem reconcileDelete_ops_readyInv (env : Env) (rel : HelmRelease) :
    ∀ op ∈ (reconcileDelete env rel).ops, readyInv (opRecord op) := by
  intro op hop
  by_cases hf : containsFinalizer rel finalizerName
  · rcases hu : env.uninstallErr with _ | msg
    · rcases hup : env.updateErr with _ | msg2 <;>
        simp [reconcileDelete, hf, hu, hup] at hop <;>
        rcases hop with rfl | rfl <;>
        exact readyInv_of_phase_ne _ (by simp [opRecord, removeFinalizer])
    · simp [reconcileDelete, hf, hu] at hop
      rcases hop with rfl | rfl
      · exact readyInv_of_phase_ne _ (by simp [opRecord])
      · exact readyInv_setFailedStatus env _ msg
  · simp [reconcileDelete, hf] at hop

/-- Every store write of the normal path satisfies the Ready invariant: the
failure and interim writes never carry phase Ready, and the success write
upserts both conditions. -/
theorem reconcileNormal_ops_readyInv (env : Env) (rel : HelmRelease) :
    ∀ op ∈ (reconcileNormal env rel).ops, readyInv (opRecord op) := by
  intro op hop
  rcases hv : parseValues env rel.spec.values with msg | vs
  · simp [reconcileNormal, hv] at hop
    subst hop
    exact readyInv_setFailedStatus env _ _
  · rcases he : env.existsResult with msg | b
    · simp [reconcileNormal, hv, he] at hop
      subst hop
      exact readyInv_setFailedStatus env _ _
    · cases b
      · rcases hi : env.installErr with _ | msg
        · rcases hs : env.statusUpdateErr with _ | smsg <;>
            simp [reconcileNormal, hv, he, hi, finishReady, hs] at hop <;>
            rcases hop with rfl | rfl
          · exact readyInv_of_phase_ne _ (by simp [opRecord])
          · exact readyInv_readyStatus env _
          · exact readyInv_of_phase_ne _ (by simp [opRecord])
          · exact readyInv_readyStatus env _
        · simp [reconcileNormal, hv, he, hi] at hop
          rcases hop with rfl | rfl
          · exact readyInv_of_phase_ne _ (by simp [opRecord])
          · exact readyInv_setFailedStatus env _ msg
      · by_cases hg : rel.status.observedGeneration = rel.generation
        · rcases hs : env.statusUpdateErr with _ | smsg <;>
            simp [reconcileNormal, hv, he, hg, finishReady, hs] at hop <;>
            subst hop <;> exact readyInv_readyStatus env _
        · rcases hup : env.upgradeErr with _ | msg
          · rcases hs : env.statusUpdateErr with _ | smsg <;>
              simp [reconcileNormal, hv, he, hg, hup, finishReady, hs] at hop <;>
              rcases hop with rfl | rfl
            · exact readyInv_of_phase_ne _ (by simp [opRecord])
            · exact readyInv_readyStatus env _
            · exact readyInv_of_phase_ne _ (by simp [opRecord])
            · exact readyInv_readyStatus env _
          · simp [reconcileNormal, hv, he, hg, hup] at hop
            rcases hop with rfl | rfl
            · exact readyInv_of_phase_ne _ (by simp [opRecord])
            · exact readyInv_setFailedStatus env _ msg

/-! Helper lemmas for the success and failure epilogues. -/

/-- The final status write records the Ready record and is the last store
operation. -/
theorem finishReady_split (env : Env) (rel : HelmRelease)
    (calls : List HelmCall) (ops0 : List StoreOp) :
    (finishReady env rel calls ops0).release = readyStatus env rel ∧
    (finishReady env rel calls ops0).ops =
      ops0 ++ [StoreOp.statusUpdate (readyStatus env rel)] := by
  rcases hs : env.statusUpdateErr <;> simp [finishReady, hs]

/-- Field values written by the Ready epilogue. -/
theorem readyStatus_fields (env : Env) (rel : HelmRelease) :
    (readyStatus env rel).status.phase = some Phase.ready ∧
    (readyStatus env rel).status.deployedVersion = rel.spec.version ∧
    (readyStatus env rel).status.observedGeneration = rel.generation ∧
    (readyStatus env rel).status.lastDeployedAt = some env.now := by
  simp [readyStatus, setCondition]

/-- The upserted condition is found under its own type, with some transition
timestamp. -/
theorem find_upsertCondition_exists (now : Nat) (c : Condition)
    (l : List Condition) :
    ∃ t, (upsertCondition { c with lastTransitionTime := now } l).find?
        (fun d => d.type == c.type) =
      some { c with lastTransitionTime := t } := by
  rw [find_upsertCondition_spec]
  cases l.find? (fun d => d.type == c.type) with
  | none => exact ⟨now, rfl⟩
  | some c0 =>
    exact ⟨if c0.status == c.status then c0.lastTransitionTime else now, rfl⟩

/-- The failure handler's record carries a Ready=False condition with reason
ReconcileError and the error text as message. -/
theorem setFailedStatus_find_Ready (env : Env) (rel : HelmRelease)
    (msg : String) :
    ∃ t, (setFailedStatus env rel msg).status.conditions.find?
        (fun d => d.type == "Ready") =
      some { type := "Ready", status := ConditionFalse,
             reason := "ReconcileError", message := msg,
             observedGeneration := rel.generation, lastTransitionTime := t } :=
  find_upsertCondition_exists env.now
    { type := "Ready", status := ConditionFalse, reason := "ReconcileError",
      message := msg, observedGeneration := rel.generation,
      lastTransitionTime := 0 } rel.status.conditions

/-- Attaching the finalizer leaves the status untouched, so it preserves the
Ready invariant. -/
theorem readyInv_addFinalizer (rel : HelmRelease) (f : String)
    (h : readyInv rel) : readyInv (addFinalizer rel f) := by
  unfold addFinalizer
  split
  · exact h
  · exact h

/-- One reconcile invocation on the idempotent no-op path: only the existence
check is issued, and the resulting record again satisfies the no-op
preconditions. -/
theorem noop_step (env : Env) (rel : HelmRelease)
    (hfin : containsFinalizer rel finalizerName = true)
    (hdel : rel.deletionTimestamp = none)
    (hvals : ∃ vs, parseValues env rel.spec.values = .ok vs)
    (hex : env.existsResult = .ok true)
    (hgen : rel.status.observedGeneration = rel.generation) :
    (Reconcile env rel).calls =
      [HelmCall.releaseExists (effectiveReleaseName rel)
        rel.spec.targetNamespace] ∧
    containsFinalizer (Reconcile env rel).release finalizerName = true ∧
    (Reconcile env rel).release.deletionTimestamp = none ∧
    (Reconcile env rel).release.spec = rel.spec ∧
    (Reconcile env rel).release.status.observedGeneration =
      (Reconcile env rel).release.generation := by
  obtain ⟨vs, hv⟩ := hvals
  have hm : finalizerName ∈ rel.finalizers := List.elem_iff.mp hfin
  rcases hs : env.statusUpdateErr with _ | smsg <;>
    simp [Reconcile, hdel, hfin, hm, reconcileNormal, hv, hex, hgen,
      finishReady, hs, readyStatus, setCondition, containsFinalizer]

/-! The claims. -/

/-- C1: for every record with no deletion marker and without the finalizer,
a single reconcile invocation makes no Helm client call at all, attaches the
finalizer, and persists the record with a single full update; the deployment
work is deferred to a later invocation. -/
theorem firstReconcile_attaches_finalizer_only (env : Env)
    (rel : HelmRelease) (hdel : rel.deletionTimestamp = none)
    (hfin : finalizerName ∉ rel.finalizers) :
    (Reconcile env rel).calls = [] ∧
    finalizerName ∈ (Reconcile env rel).release.finalizers ∧
    (Reconcile env rel).ops = [StoreOp.update (Reconcile env rel).release] := by
  have hc : containsFinalizer rel finalizerName = false :=
    Bool.eq_false_iff.mpr (fun h => hfin (List.elem_iff.mp h))
  rcases hu : env.updateErr with _ | msg <;>
    simp [Reconcile, hdel, hc, hu, addFinalizer, containsFinalizer] at * <;>
    simp [hc]

/-- Witness for C1: the fresh scenario-A record. -/
theorem firstReconcile_attaches_finalizer_only_witness :
    relW0.deletionTimestamp = none ∧
    (Reconcile envW relW0).calls = [] ∧
    finalizerName ∈ (Reconcile envW relW0).release.finalizers ∧
    (Reconcile envW relW0).ops =
      [StoreOp.update (Reconcile envW relW0).release] :=
  ⟨rfl, firstReconcile_attaches_finalizer_only envW relW0 rfl (by decide)⟩

/-- C2: for every record with the finalizer, no deletion marker, decodable
values, an existence check answering true and observedGeneration differing
from generation, the invocation's Helm call trace is exactly the existence
check followed by one upgrade with the effective release name, chart, repo,
version, target namespace and decoded values — in particular install is
never called. -/
theorem generation_drift_upgrades_not_installs (env : Env)
    (rel : HelmRelease) (vs : Values)
    (hfin : containsFinalizer rel finalizerName = true)
    (hdel : rel.deletionTimestamp = none)
    (hvals : parseValues env rel.spec.values = .ok vs)
    (hex : env.existsResult = .ok true)
    (hgen : rel.status.observedGeneration ≠ rel.generation) :
    (Reconcile env rel).calls =
      [HelmCall.releaseExists (effectiveReleaseName rel)
        rel.spec.targetNamespace,
       HelmCall.upgrade (effectiveReleaseName rel) rel.spec.chart
         rel.spec.repoURL rel.spec.version rel.spec.targetNamespace vs] := by
  have hm : finalizerName ∈ rel.finalizers := List.elem_iff.mp hfin
  rcases hup : env.upgradeErr with _ | msg <;>
    rcases hs : env.statusUpdateErr with _ | smsg <;>
    simp [Reconcile, hdel, hfin, hm, containsFinalizer, reconcileNormal,
      hvals, hex, hgen, hup, finishReady, hs]

/-- Witness for C2: scenario-A record awaiting its first observation with the
release already present. -/
theorem generation_drift_upgrades_not_installs_witness :
    relW1.status.observedGeneration ≠ relW1.generation ∧
    (Reconcile envExistsTrue relW1).calls =
      [HelmCall.releaseExists (effectiveReleaseName relW1)
        relW1.spec.targetNamespace,
       HelmCall.upgrade (effectiveReleaseName relW1) relW1.spec.chart
         relW1.spec.repoURL relW1.spec.version relW1.spec.targetNamespace
         []] :=
  ⟨by decide, generation_drift_upgrades_not_installs envExistsTrue relW1 []
    (by decide) rfl rfl rfl (by decide)⟩

/-- C3: for every record with the finalizer, no deletion marker, decodable
values, an existence check answering true and observedGeneration equal to
generation, no install, upgrade or uninstall is issued, on this and on every
repeated invocation while the environment stays the same. -/
theorem matching_generation_never_deploys (env : Env) :
    ∀ (n : Nat) (rel : HelmRelease),
    containsFinalizer rel finalizerName = true →
    rel.deletionTimestamp = none →
    (∃ vs, parseValues env rel.spec.values = .ok vs) →
    env.existsResult = .ok true →
    rel.status.observedGeneration = rel.generation →
    ∀ c ∈ (iterateReconcile env rel n).2, isDeployCall c = false := by
  intro n
  induction n with
  | zero =>
    intro rel _ _ _ _ _ c hc
    exact absurd hc (List.not_mem_nil c)
  | succ n ih =>
    intro rel hfin hdel hvals hex hgen c hc
    obtain ⟨hcalls, hf2, hd2, hspec, hg2⟩ :=
      noop_step env rel hfin hdel hvals hex hgen
    have hc2 : c ∈ (Reconcile env rel).calls ++
        (iterateReconcile env (Reconcile env rel).release n).2 := hc
    rw [List.mem_append] at hc2
    rcases hc2 with hc | hc
    · rw [hcalls] at hc
      simp at hc
      subst hc
      rfl
    · obtain ⟨vs, hv⟩ := hvals
      exact ih (Reconcile env rel).release hf2 hd2 ⟨vs, by rw [hspec]; exact hv⟩
        hex hg2 c hc

/-- Witness for C3: the fully reconciled scenario-A record, iterated twice;
the only calls made are existence checks. -/
theorem matching_generation_never_deploys_witness :
    relW2.status.observedGeneration = relW2.generation ∧
    isDeployCall (HelmCall.releaseExists "nginx" "demo") = false :=
  ⟨by decide, matching_generation_never_deploys envExistsTrue 2 relW2
    (by decide) rfl ⟨[], rfl⟩ rfl (by decide)
    (HelmCall.releaseExists "nginx" "demo") (by decide)⟩

/-- C4: for every record with the finalizer and no deletion marker, when the
values decode, the existence check and any required install or upgrade all
succeed, the final status write sets phase Ready, deployedVersion to the
spec version, observedGeneration to the record's generation, lastDeployedAt
to the current time, a Ready condition with status True and a Progressing
condition with status False, and it is the last store write of the
invocation. -/
theorem success_write_sets_ready_status (env : Env) (rel : HelmRelease)
    (vs : Values) (b : Bool)
    (hfin : containsFinalizer rel finalizerName = true)
    (hdel : rel.deletionTimestamp = none)
    (hvals : parseValues env rel.spec.values = .ok vs)
    (hex : env.existsResult = .ok b)
    (hinst : b = false → env.installErr = none)
    (hupg : b = true → rel.status.observedGeneration ≠ rel.generation →
      env.upgradeErr = none) :
    (Reconcile env rel).release.status.phase = some Phase.ready ∧
    (Reconcile env rel).release.status.deployedVersion = rel.spec.version ∧
    (Reconcile env rel).release.status.observedGeneration = rel.generation ∧
    (Reconcile env rel).release.status.lastDeployedAt = some env.now ∧
    ((Reconcile env rel).release.status.conditions.find?
        (fun d => d.type == "Ready")).map Condition.status =
      some ConditionTrue ∧
    ((Reconcile env rel).release.status.conditions.find?
        (fun d => d.type == "Progressing")).map Condition.status =
      some ConditionFalse ∧
    (Reconcile env rel).ops.getLast? =
      some (StoreOp.statusUpdate (Reconcile env rel).release) := by
  have hm : finalizerName ∈ rel.finalizers := List.elem_iff.mp hfin
  have key : ∃ rel1 calls ops0, rel1.spec = rel.spec ∧
      rel1.generation = rel.generation ∧
      Reconcile env rel = finishReady env rel1 calls ops0 := by
    cases b
    · refine ⟨{ rel with status.phase := some Phase.installing },
        [HelmCall.releaseExists (effectiveReleaseName rel)
          rel.spec.targetNamespace,
         HelmCall.install (effectiveReleaseName rel) rel.spec.chart
           rel.spec.repoURL rel.spec.version rel.spec.targetNamespace vs],
        [StoreOp.statusUpdate
          { rel with status.phase := some Phase.installing }], rfl, rfl, ?_⟩
      simp [Reconcile, hdel, hfin, hm, containsFinalizer, reconcileNormal,
        hvals, hex, hinst rfl]
    · by_cases hg : rel.status.observedGeneration = rel.generation
      · refine ⟨rel,
          [HelmCall.releaseExists (effectiveReleaseName rel)
            rel.spec.targetNamespace], [], rfl, rfl, ?_⟩
        simp [Reconcile, hdel, hfin, hm, containsFinalizer,
          reconcileNormal, hvals, hex, hg]
      · refine ⟨{ rel with status.phase := some Phase.upgrading },
          [HelmCall.releaseExists (effectiveReleaseName rel)
            rel.spec.targetNamespace,
           HelmCall.upgrade (effectiveReleaseName rel) rel.spec.chart
             rel.spec.repoURL rel.spec.version rel.spec.targetNamespace vs],
          [StoreOp.statusUpdate
            { rel with status.phase := some Phase.upgrading }], rfl, rfl, ?_⟩
        simp [Reconcile, hdel, hfin, hm, containsFinalizer,
          reconcileNormal, hvals, hex, hg, hupg rfl hg]
  obtain ⟨rel1, calls, ops0, hspec, hgen1, hout⟩ := key
  obtain ⟨hrel, hops⟩ := finishReady_split env rel1 calls ops0
  rw [hout, hrel, hops]
  obtain ⟨hph, hdv, hog, hld⟩ := readyStatus_fields env rel1
  refine ⟨hph, by rw [hdv, hspec], by rw [hog, hgen1], hld, ?_, ?_, by simp⟩
  · exact ((readyInv_readyStatus env rel1) hph).1
  · exact ((readyInv_readyStatus env rel1) hph).2

/-- Witness for C4: scenario A's second reconcile installs and ends Ready at
observedGeneration 1 with deployedVersion 1.0.0. -/
theorem success_write_sets_ready_status_witness :
    (Reconcile envW relW1).release.status.phase = some Phase.ready ∧
    (Reconcile envW relW1).release.status.deployedVersion =
      relW1.spec.version ∧
    (Reconcile envW relW1).release.status.observedGeneration =
      relW1.generation ∧
    (Reconcile envW relW1).release.status.lastDeployedAt = some envW.now ∧
    ((Reconcile envW relW1).release.status.conditions.find?
        (fun d => d.type == "Ready")).map Condition.status =
      some ConditionTrue ∧
    ((Reconcile envW relW1).release.status.conditions.find?
        (fun d => d.type == "Progressing")).map Condition.status =
      some ConditionFalse ∧
    (Reconcile envW relW1).ops.getLast? =
      some (StoreOp.statusUpdate (Reconcile envW relW1).release) :=
  success_write_sets_ready_status envW relW1 [] false (by decide) rfl rfl rfl
    (fun _ => rfl) (fun h _ => by cases h)

/-- C5: for every record under deletion with the finalizer present, an
uninstall failure leaves the finalizer attached, sets phase Failed, returns
the error and requests a retry after the fixed backoff interval; a
successful uninstall removes the finalizer and persists the record. -/
theorem uninstall_failure_keeps_finalizer (env : Env) (rel : HelmRelease)
    (hdel : rel.deletionTimestamp.isSome = true)
    (hfin : containsFinalizer rel finalizerName = true) :
    (∀ msg, env.uninstallErr = some msg →
      finalizerName ∈ (Reconcile env rel).release.finalizers ∧
      (Reconcile env rel).release.status.phase = some Phase.failed ∧
      (Reconcile env rel).requeueAfter = requeueOnFailure ∧
      (Reconcile env rel).err = some msg) ∧
    (env.uninstallErr = none →
      finalizerName ∉ (Reconcile env rel).release.finalizers ∧
      StoreOp.update (Reconcile env rel).release ∈
        (Reconcile env rel).ops) := by
  have hm : finalizerName ∈ rel.finalizers := List.elem_iff.mp hfin
  constructor
  · intro msg hu
    simp [Reconcile, hdel, reconcileDelete, hfin, hm, containsFinalizer, hu,
      setFailedStatus, setCondition]
  · intro hu
    rcases hup : env.updateErr with _ | m2 <;>
      simp [Reconcile, hdel, reconcileDelete, hfin, hm, containsFinalizer,
        hu, hup, removeFinalizer, List.mem_filter]

/-- Witness for C5: deletion of the scenario-A record with a failing
uninstall call. -/
theorem uninstall_failure_keeps_finalizer_witness :
    finalizerName ∈ (Reconcile envUninstallFail relDel).release.finalizers ∧
    (Reconcile envUninstallFail relDel).release.status.phase =
      some Phase.failed ∧
    (Reconcile envUninstallFail relDel).requeueAfter = requeueOnFailure ∧
    (Reconcile envUninstallFail relDel).err = some "uninstall failed" :=
  (uninstall_failure_keeps_finalizer envUninstallFail relDel rfl
    (by decide)).1 "uninstall failed" rfl

/-- C7 counterexample: a record whose values payload fails to decode is
routed through the failure handler (error returned, phase Failed), yet the
returned result carries no requeue delay at all — not the fixed 30-second
interval used for Helm client call failures. -/
theorem decode_failure_requeue_counterexample :
    (Reconcile envBadDecode relVals).err =
      some "parsing values: invalid json" ∧
    (Reconcile envBadDecode relVals).release.status.phase =
      some Phase.failed ∧
    (Reconcile envBadDecode relVals).requeueAfter ≠ requeueOnFailure ∧
    (Reconcile envBadDecode relVals).requeueAfter = 0 := by
  decide

/-- C7 (amended): a decode failure of the values payload is routed through
the shared failure handler — phase Failed, a Ready=False condition, the
wrapped error returned — and no Helm call is made, but the result requests
no fixed requeue interval (requeueAfter stays 0, the caller's default retry
policy applies), unlike Helm client call failures which request the fixed
30-second interval. -/
theorem decode_failure_no_fixed_requeue (env : Env) (rel : HelmRelease)
    (raw msg : String)
    (hfin : containsFinalizer rel finalizerName = true)
    (hdel : rel.deletionTimestamp = none)
    (hraw : rel.spec.values = some raw)
    (hdec : env.decode raw = .error msg) :
    failedOutcome rel.generation (Reconcile env rel)
      ("parsing values: " ++ msg) ∧
    (Reconcile env rel).calls = [] ∧
    (Reconcile env rel).requeueAfter = 0 := by
  have hm : finalizerName ∈ rel.finalizers := List.elem_iff.mp hfin
  have hout : Reconcile env rel =
      { release := setFailedStatus env rel ("parsing values: " ++ msg),
        requeueAfter := 0, err := some ("parsing values: " ++ msg),
        calls := [],
        ops := [StoreOp.statusUpdate
          (setFailedStatus env rel ("parsing values: " ++ msg))] } := by
    simp [Reconcile, hdel, hfin, hm, containsFinalizer, reconcileNormal,
      parseValues, hraw, hdec]
  rw [hout]
  exact ⟨⟨rfl, rfl, setFailedStatus_find_Ready env rel _⟩, rfl, rfl⟩

/-- Witness for the amended C7: concrete record with an undecodable values
payload. -/
theorem decode_failure_no_fixed_requeue_witness :
    failedOutcome relVals.generation (Reconcile envBadDecode relVals)
      ("parsing values: " ++ "invalid json") ∧
    (Reconcile envBadDecode relVals).calls = [] ∧
    (Reconcile envBadDecode relVals).requeueAfter = 0 :=
  decode_failure_no_fixed_requeue envBadDecode relVals "not-json"
    "invalid json" (by decide) rfl rfl rfl

/-- C8: every error routed through the shared failure handler — an
existence-check, install, upgrade or uninstall failure — yields phase
Failed, a Ready=False condition with reason ReconcileError (the handler's
error reason) and the error's description as message, and the original
error is returned to the caller, whatever the outcome of the handler's own
best-effort status persist (the statement holds for every statusUpdateErr). -/
theorem failure_handler_records_error (env : Env) (rel : HelmRelease)
    (msg : String) (vs : Values)
    (hfin : containsFinalizer rel finalizerName = true) :
    (rel.deletionTimestamp = none →
      parseValues env rel.spec.values = .ok vs →
      env.existsResult = .error msg →
      failedOutcome rel.generation (Reconcile env rel) msg) ∧
    (rel.deletionTimestamp = none →
      parseValues env rel.spec.values = .ok vs →
      env.existsResult = .ok false → env.installErr = some msg →
      failedOutcome rel.generation (Reconcile env rel) msg) ∧
    (rel.deletionTimestamp = none →
      parseValues env rel.spec.values = .ok vs →
      env.existsResult = .ok true →
      rel.status.observedGeneration ≠ rel.generation →
      env.upgradeErr = some msg →
      failedOutcome rel.generation (Reconcile env rel) msg) ∧
    (rel.deletionTimestamp.isSome = true → env.uninstallErr = some msg →
      failedOutcome rel.generation (Reconcile env rel) msg) := by
  have hm : finalizerName ∈ rel.finalizers := List.elem_iff.mp hfin
  refine ⟨fun hdel hv he => ?_, fun hdel hv he hi => ?_,
    fun hdel hv he hg hu => ?_, fun hdel hu => ?_⟩
  · have hout : Reconcile env rel =
        { release := setFailedStatus env rel msg,
          requeueAfter := requeueOnFailure, err := some msg,
          calls := [HelmCall.releaseExists (effectiveReleaseName rel)
            rel.spec.targetNamespace],
          ops := [StoreOp.statusUpdate (setFailedStatus env rel msg)] } := by
      simp [Reconcile, hdel, hfin, hm, containsFinalizer, reconcileNormal,
        hv, he]
    rw [hout]
    exact ⟨rfl, rfl, setFailedStatus_find_Ready env rel msg⟩
  · have hout : Reconcile env rel =
        { release := setFailedStatus env
            { rel with status.phase := some Phase.installing } msg,
          requeueAfter := requeueOnFailure, err := some msg,
          calls := [HelmCall.releaseExists (effectiveReleaseName rel)
            rel.spec.targetNamespace,
            HelmCall.install (effectiveReleaseName rel) rel.spec.chart
              rel.spec.repoURL rel.spec.version rel.spec.targetNamespace vs],
          ops := [StoreOp.statusUpdate
              { rel with status.phase := some Phase.installing },
            StoreOp.statusUpdate (setFailedStatus env
              { rel with status.phase := some Phase.installing } msg)] } := by
      simp [Reconcile, hdel, hfin, hm, containsFinalizer, reconcileNormal,
        hv, he, hi]
    rw [hout]
    exact ⟨rfl, rfl, setFailedStatus_find_Ready env _ msg⟩
  · have hout : Reconcile env rel =
        { release := setFailedStatus env
            { rel with status.phase := some Phase.upgrading } msg,
          requeueAfter := requeueOnFailure, err := some msg,
          calls := [HelmCall.releaseExists (effectiveReleaseName rel)
            rel.spec.targetNamespace,
            HelmCall.upgrade (effectiveReleaseName rel) rel.spec.chart
              rel.spec.repoURL rel.spec.version rel.spec.targetNamespace vs],
          ops := [StoreOp.statusUpdate
              { rel with status.phase := some Phase.upgrading },
            StoreOp.statusUpdate (setFailedStatus env
              { rel with status.phase := some Phase.upgrading } msg)] } := by
      simp [Reconcile, hdel, hfin, hm, containsFinalizer, reconcileNormal,
        hv, he, hg, hu]
    rw [hout]
    exact ⟨rfl, rfl, setFailedStatus_find_Ready env _ msg⟩
  · have hout : Reconcile env rel =
        { release := setFailedStatus env
            { rel with status.phase := some Phase.uninstalling } msg,
          requeueAfter := requeueOnFailure, err := some msg,
          calls := [HelmCall.uninstall (effectiveReleaseName rel)
            rel.spec.targetNamespace],
          ops := [StoreOp.statusUpdate
              { rel with status.phase := some Phase.uninstalling },
            StoreOp.statusUpdate (setFailedStatus env
              { rel with status.phase := some Phase.uninstalling } msg)] } := by
      simp [Reconcile, hdel, hfin, hm, containsFinalizer, reconcileDelete, hu]
    rw [hout]
    exact ⟨rfl, rfl, setFailedStatus_find_Ready env _ msg⟩

/-- Witness for C8: scenario D, an install call failing with
"install failed". -/
theorem failure_handler_records_error_witness :
    failedOutcome relW1.generation (Reconcile envInstallFail relW1)
      "install failed" :=
  (failure_handler_records_error envInstallFail relW1 "install failed" []
    (by decide)).2.1 rfl rfl rfl rfl

/-- C9: every record written to the store by a reconcile invocation
preserves the Ready invariant — phase Ready implies a Ready condition with
status True and a Progressing condition with status False.  Only the success
epilogue writes phase Ready, and it upserts both conditions in that same
write; failure and deletion writes carry phase Failed, Installing,
Upgrading or Uninstalling. -/
theorem ready_phase_implies_conditions (env : Env) (rel : HelmRelease)
    (h : readyInv rel) :
    ∀ op ∈ (Reconcile env rel).ops, readyInv (opRecord op) := by
  intro op hop
  by_cases hd : rel.deletionTimestamp.isSome
  · simp only [Reconcile, hd, if_true] at hop
    exact reconcileDelete_ops_readyInv env rel op hop
  · by_cases hf : containsFinalizer rel finalizerName
    · have hop2 : op ∈ (reconcileNormal env rel).ops := by
        simpa [Reconcile, hd, hf] using hop
      exact reconcileNormal_ops_readyInv env rel op hop2
    · have hf2 : containsFinalizer rel finalizerName = false :=
        Bool.eq_false_iff.mpr hf
      rcases hu : env.updateErr with _ | msg <;>
        simp [Reconcile, hd, hf2, hu] at hop <;>
        subst hop <;>
        exact readyInv_addFinalizer rel finalizerName h

/-- Witness for C9: the interim Installing write of scenario A's second
reconcile satisfies the invariant. -/
theorem ready_phase_implies_conditions_witness :
    readyInv relW1 ∧
    readyInv (opRecord (StoreOp.statusUpdate
      { relW1 with status.phase := some Phase.installing })) :=
  ⟨fun hr => absurd hr (by decide),
    ready_phase_implies_conditions envW relW1
      (fun hr => absurd hr (by decide))
      (StoreOp.statusUpdate
        { relW1 with status.phase := some Phase.installing })
      (by decide)⟩

/-- C10: the deletion path never consults the values decoder: for a record
under deletion with the finalizer present, the Helm calls, the returned
error, the requeue delay and the resulting finalizers are identical for any
contents of the values field and any decoder, so a malformed values payload
can never block deletion. -/
theorem deletion_ignores_values_payload (env : Env) (rel : HelmRelease)
    (d1 d2 : String → Except String Values) (v1 v2 : Option String)
    (hdel : rel.deletionTimestamp.isSome = true)
    (hfin : containsFinalizer rel finalizerName = true) :
    (Reconcile { env with decode := d1 }
        { rel with spec.values := v1 }).calls =
      (Reconcile { env with decode := d2 }
        { rel with spec.values := v2 }).calls ∧
    (Reconcile { env with decode := d1 }
        { rel with spec.values := v1 }).err =
      (Reconcile { env with decode := d2 }
        { rel with spec.values := v2 }).err ∧
    (Reconcile { env with decode := d1 }
        { rel with spec.values := v1 }).requeueAfter =
      (Reconcile { env with decode := d2 }
        { rel with spec.values := v2 }).requeueAfter ∧
    (Reconcile { env with decode := d1 }
        { rel with spec.values := v1 }).release.finalizers =
      (Reconcile { env with decode := d2 }
        { rel with spec.values := v2 }).release.finalizers := by
  have hm : finalizerName ∈ rel.finalizers := List.elem_iff.mp hfin
  rcases hu : env.uninstallErr with _ | msg
  · rcases hup : env.updateErr with _ | m2 <;>
      simp [Reconcile, hdel, reconcileDelete, hfin, hm, containsFinalizer,
        hu, hup, removeFinalizer, effectiveReleaseName]
  · simp [Reconcile, hdel, reconcileDelete, hfin, hm, containsFinalizer, hu,
      setFailedStatus, setCondition, effectiveReleaseName]

/-- Witness for C10: a garbage payload with a rejecting decoder against an
absent payload with an accepting decoder, on a record under deletion. -/
theorem deletion_ignores_values_payload_witness :
    (Reconcile { envW with decode := fun _ => .error "bad" }
        { relDel with spec.values := some "garbage" }).calls =
      (Reconcile { envW with decode := fun _ => .ok [] }
        { relDel with spec.values := none }).calls ∧
    (Reconcile { envW with decode := fun _ => .error "bad" }
        { relDel with spec.values := some "garbage" }).err =
      (Reconcile { envW with decode := fun _ => .ok [] }
        { relDel with spec.values := none }).err ∧
    (Reconcile { envW with decode := fun _ => .error "bad" }
        { relDel with spec.values := some "garbage" }).requeueAfter =
      (Reconcile { envW with decode := fun _ => .ok [] }
        { relDel with spec.values := none }).requeueAfter ∧
    (Reconcile { envW with decode := fun _ => .error "bad" }
        { relDel with spec.values := some "garbage" }).release.finalizers =
      (Reconcile { envW with decode := fun _ => .ok [] }
        { relDel with spec.values := none }).release.finalizers :=
  deletion_ignores_values_payload envW relDel (fun _ => .error "bad")
    (fun _ => .ok []) (some "garbage") none rfl (by decide)
